import Mathlib

/-!
Verification of the scoring engine of the `pluto` journaling app
(`src/lib/scoring.ts`): the classifier, the day aggregator, and the
EMA trend smoother, shallowly embedded over `ℝ` (numeric core) and
`ℚ`/`String` (classifier and note pipeline).
-/

open Real

/-- The closed enumeration of behavioural categories (`EntryCategory`). -/
inductive EntryCategory where
  | Physical
  | Social
  | Focus
  | EmotionRegulation
  | Avoidance
  | Impulse
  | Sleep
  | Other
deriving DecidableEq, Repr

/-- `ScoreConfig`: loss-aversion multiplier, scale divisor, EMA weight. -/
structure ScoreConfig where
  lambda : ℝ
  scale : ℝ
  emaAlpha : ℝ

/-- `DEFAULT_CONFIG = { lambda: 1.8, scale: 6, emaAlpha: 0.3 }`. -/
noncomputable def DEFAULT_CONFIG : ScoreConfig :=
  { lambda := 1.8, scale := 6, emaAlpha := 0.3 }

/-- `clamp(n, min, max) = Math.max(min, Math.min(max, n))`. -/
noncomputable def clamp (n lo hi : ℝ) : ℝ :=
  max lo (min hi n)

/-- `clamp` applied with its default bounds `min = 0`, `max = 100`. -/
noncomputable def clamp0100 (n : ℝ) : ℝ :=
  clamp n 0 100

/-- `sigmoid(z) = 1 / (1 + Math.exp(-z))`. -/
noncomputable def sigmoid (z : ℝ) : ℝ :=
  1 / (1 + Real.exp (-z))

/-- Result record of `scoreDayFromValues`. -/
structure DayScoreResult where
  positiveSum : ℝ
  negativeSum : ℝ
  rawScore : ℝ

/-- `scoreDayFromValues(values, config)`: positive mass `p` and negative
mass `n` via `reduce`, `z = (p - lambda*n)/scale`, raw score
`clamp(100*sigmoid(z))`. -/
noncomputable def scoreDayFromValues (values : List ℝ) (config : ScoreConfig) :
    DayScoreResult :=
  let p := values.foldl (fun acc v => acc + max 0 v) 0
  let n := values.foldl (fun acc v => acc + max 0 (-v)) 0
  let z := (p - config.lambda * n) / config.scale
  let raw := 100 * sigmoid z
  { positiveSum := p, negativeSum := n, rawScore := clamp0100 raw }

/-- `emaScore(todayRaw, yesterdaySmoothed, config)`: seed with the clamped
raw value when no previous smoothed value exists, otherwise the clamped
EMA blend. -/
noncomputable def emaScore (todayRaw : ℝ) (yesterdaySmoothed : Option ℝ)
    (config : ScoreConfig) : ℝ :=
  match yesterdaySmoothed with
  | none => clamp0100 todayRaw
  | some y => clamp0100 (config.emaAlpha * todayRaw + (1 - config.emaAlpha) * y)

-- ---------- helper lemmas on the math core ----------

theorem foldl_add_eq_sum (f : ℝ → ℝ) (l : List ℝ) (s : ℝ) :
    l.foldl (fun acc v => acc + f v) s = s + (l.map f).sum := by
  induction l generalizing s with
  | nil => simp
  | cons a t ih => simp [ih]; ring

theorem positiveSum_eq (values : List ℝ) (config : ScoreConfig) :
    (scoreDayFromValues values config).positiveSum =
      (values.map (fun v => max 0 v)).sum := by
  simp [scoreDayFromValues, foldl_add_eq_sum]

theorem negativeSum_eq (values : List ℝ) (config : ScoreConfig) :
    (scoreDayFromValues values config).negativeSum =
      (values.map (fun v => max 0 (-v))).sum := by
  simp [scoreDayFromValues, foldl_add_eq_sum]

theorem rawScore_eq (values : List ℝ) (config : ScoreConfig) :
    (scoreDayFromValues values config).rawScore =
      clamp0100 (100 * sigmoid
        (((values.map (fun v => max 0 v)).sum -
          config.lambda * (values.map (fun v => max 0 (-v))).sum) /
          config.scale)) := by
  simp [scoreDayFromValues, foldl_add_eq_sum]

theorem sigmoid_zero : sigmoid 0 = 1 / 2 := by
  simp [sigmoid]
  norm_num

theorem clamp0100_nonneg (n : ℝ) : 0 ≤ clamp0100 n := by
  simp [clamp0100, clamp]

theorem clamp0100_le_100 (n : ℝ) : clamp0100 n ≤ 100 := by
  have h : min (100 : ℝ) n ≤ 100 := min_le_left _ _
  simpa [clamp0100, clamp] using max_le (by norm_num) h

theorem clamp0100_eq_self {n : ℝ} (h0 : 0 ≤ n) (h1 : n ≤ 100) :
    clamp0100 n = n := by
  simp [clamp0100, clamp, min_eq_right h1, max_eq_right h0]

/-- Claim C5: when no previous smoothed value exists, `emaScore` returns
the clamped raw value: `emaScore(r, absent, cfg) = clamp(r)`. -/
theorem claim_C5 (r : ℝ) (cfg : ScoreConfig) :
    emaScore r none cfg = clamp0100 r := rfl

/-- Claim C2: for every finite input sequence and every config with
`scale > 0`, the raw score lies in `[0, 100]`, and on the empty sequence
`scoreDayFromValues` returns `positiveSum = 0`, `negativeSum = 0` and
`rawScore = 50` exactly. -/
theorem claim_C2 (values : List ℝ) (cfg : ScoreConfig) (hs : 0 < cfg.scale) :
    (0 ≤ (scoreDayFromValues values cfg).rawScore ∧
      (scoreDayFromValues values cfg).rawScore ≤ 100) ∧
    scoreDayFromValues ([] : List ℝ) cfg =
      { positiveSum := 0, negativeSum := 0, rawScore := 50 } := by
  refine ⟨⟨?_, ?_⟩, ?_⟩
  · rw [rawScore_eq]; exact clamp0100_nonneg _
  · rw [rawScore_eq]; exact clamp0100_le_100 _
  · have hz : ((0 : ℝ) - cfg.lambda * 0) / cfg.scale = 0 := by ring
    simp only [scoreDayFromValues, List.foldl_nil]
    rw [hz, sigmoid_zero]
    norm_num
    exact clamp0100_eq_self (by norm_num) (by norm_num)

-- ---------- C10: sum identity and permutation invariance ----------

theorem max_sub_max_neg (v : ℝ) : max 0 v - max 0 (-v) = v := by
  rcases le_total 0 v with h | h
  · rw [max_eq_right h, max_eq_left (by linarith)]; ring
  · rw [max_eq_left h, max_eq_right (by linarith)]; ring

theorem map_max_sub_map_max_neg (l : List ℝ) :
    (l.map (fun v => max 0 v)).sum - (l.map (fun v => max 0 (-v))).sum =
      l.sum := by
  induction l with
  | nil => simp
  | cons a t ih =>
    simp only [List.map_cons, List.sum_cons]
    have := max_sub_max_neg a
    linarith

theorem scoreDay_congr_sums (l l' : List ℝ) (cfg : ScoreConfig)
    (hp : (l.map (fun v => max 0 v)).sum = (l'.map (fun v => max 0 v)).sum)
    (hn : (l.map (fun v => max 0 (-v))).sum =
      (l'.map (fun v => max 0 (-v))).sum) :
    scoreDayFromValues l cfg = scoreDayFromValues l' cfg := by
  simp only [scoreDayFromValues, foldl_add_eq_sum, zero_add, hp, hn]

/-- Claim C10: `positiveSum - negativeSum` equals the sum of the inputs,
and `scoreDayFromValues` is invariant under permutation of its input. -/
theorem claim_C10 (cfg : ScoreConfig) (l l' : List ℝ) (h : l.Perm l') :
    (scoreDayFromValues l cfg).positiveSum -
      (scoreDayFromValues l cfg).negativeSum = l.sum ∧
    scoreDayFromValues l cfg = scoreDayFromValues l' cfg := by
  constructor
  · rw [positiveSum_eq, negativeSum_eq]
    exact map_max_sub_map_max_neg l
  · exact scoreDay_congr_sums l l' cfg
      (List.Perm.sum_eq (h.map _)) (List.Perm.sum_eq (h.map _))

theorem claim_C10_witness :
    (scoreDayFromValues [1, -2] DEFAULT_CONFIG).positiveSum -
      (scoreDayFromValues [1, -2] DEFAULT_CONFIG).negativeSum =
      ([1, -2] : List ℝ).sum ∧
    scoreDayFromValues [1, -2] DEFAULT_CONFIG =
      scoreDayFromValues [-2, 1] DEFAULT_CONFIG :=
  claim_C10 DEFAULT_CONFIG [1, -2] [-2, 1] (List.Perm.swap (-2) 1 [])

-- ---------- C4: EMA sequence vs. recurrence replay ----------

/-- The trend loop of the report page: fold `emaScore` over the raw
scores, threading the previous smoothed value (`prevSmoothed`),
starting from `none`. -/
noncomputable def emaSequenceAux (cfg : ScoreConfig) (prev : Option ℝ) :
    List ℝ → List ℝ
  | [] => []
  | r :: rs =>
    let s := emaScore r prev cfg
    s :: emaSequenceAux cfg (some s) rs

/-- The smoothed sequence produced by calling `emaScore` once per day in
chronological order, seeding with no previous value. -/
noncomputable def emaSequence (cfg : ScoreConfig) (rs : List ℝ) : List ℝ :=
  emaSequenceAux cfg none rs

/-- Modelled from the spec: replay of the recurrence
`S_t = clamp(alpha * r_t + (1 - alpha) * S_(t-1))` after the seed step. -/
noncomputable def replayAux (cfg : ScoreConfig) (sPrev : ℝ) :
    List ℝ → List ℝ
  | [] => []
  | r :: rs =>
    let s := clamp0100 (cfg.emaAlpha * r + (1 - cfg.emaAlpha) * sPrev)
    s :: replayAux cfg s rs

/-- Modelled from the spec: the recurrence replay over `r_1..r_k`, seeded
with `S_1 = clamp(r_1)` (no previous value on day 1). -/
noncomputable def replaySmoothed (cfg : ScoreConfig) : List ℝ → List ℝ
  | [] => []
  | r :: rs => clamp0100 r :: replayAux cfg (clamp0100 r) rs

theorem emaSequenceAux_eq_replayAux (cfg : ScoreConfig) (rs : List ℝ)
    (s : ℝ) : emaSequenceAux cfg (some s) rs = replayAux cfg s rs := by
  induction rs generalizing s with
  | nil => rfl
  | cons r t ih => simp [emaSequenceAux, replayAux, emaScore, ih]

/-- Claim C4: for any raw-score sequence and config with
`emaAlpha ∈ [0,1]`, calling `emaScore` once per day in order equals the
replay of the clamped EMA recurrence; for raw scores `[80, 40]` with
`alpha = 0.3` the smoothed scores are `[80, 68]`. -/
theorem claim_C4 (cfg : ScoreConfig) (rs : List ℝ)
    (h0 : 0 ≤ cfg.emaAlpha) (h1 : cfg.emaAlpha ≤ 1) :
    emaSequence cfg rs = replaySmoothed cfg rs ∧
    emaSequence DEFAULT_CONFIG [80, 40] = [80, 68] := by
  constructor
  · cases rs with
    | nil => rfl
    | cons r t =>
      simp only [emaSequence, emaSequenceAux, replaySmoothed, emaScore]
      exact congrArg _ (emaSequenceAux_eq_replayAux cfg t _)
  · have h80 : clamp0100 80 = 80 :=
      clamp0100_eq_self (by norm_num) (by norm_num)
    simp [emaSequence, emaSequenceAux, emaScore, DEFAULT_CONFIG, h80]
    have : (0.3 : ℝ) * 40 + (1 - 0.3) * 80 = 68 := by norm_num
    rw [this]
    exact clamp0100_eq_self (by norm_num) (by norm_num)

theorem claim_C4_witness :
    emaSequence DEFAULT_CONFIG [80, 40] =
      replaySmoothed DEFAULT_CONFIG [80, 40] ∧
    emaSequence DEFAULT_CONFIG [80, 40] = [80, 68] :=
  claim_C4 DEFAULT_CONFIG [80, 40] (by norm_num [DEFAULT_CONFIG])
    (by norm_num [DEFAULT_CONFIG])

-- ---------- C1: aggregator formulas and the 56.6 scenario ----------

theorem exp_fourFifteenths_lb : (293 : ℝ) / 225 ≤ Real.exp (4 / 15) := by
  have h := Real.quadratic_le_exp_of_nonneg (x := (4 : ℝ) / 15) (by norm_num)
  nlinarith [h]

theorem exp_fourFifteenths_ub : Real.exp (4 / 15) ≤ (79366 : ℝ) / 60750 := by
  have h := @Real.exp_bound' ((4 : ℝ) / 15) (by norm_num) (by norm_num) 3
    (by norm_num)
  calc Real.exp (4 / 15) ≤ _ := h
  _ ≤ (79366 : ℝ) / 60750 := by
      norm_num [Finset.sum_range_succ, Nat.factorial]

theorem sigmoid_fourFifteenths_bounds :
    56.5 < 100 * sigmoid (4 / 15) ∧ 100 * sigmoid (4 / 15) < 56.7 := by
  have hE : (0 : ℝ) < Real.exp (4 / 15) := Real.exp_pos _
  have hlb := exp_fourFifteenths_lb
  have hub := exp_fourFifteenths_ub
  have hrw : (100 : ℝ) * sigmoid (4 / 15) =
      100 * Real.exp (4 / 15) / (Real.exp (4 / 15) + 1) := by
    rw [sigmoid, Real.exp_neg]
    field_simp
  have hpos : (0 : ℝ) < Real.exp (4 / 15) + 1 := by linarith
  rw [hrw]
  constructor
  · rw [lt_div_iff hpos]; nlinarith
  · rw [div_lt_iff hpos]; nlinarith

theorem scenario1_sums :
    (([4, 3, -3] : List ℝ).map (fun v => max 0 v)).sum = 7 ∧
    (([4, 3, -3] : List ℝ).map (fun v => max 0 (-v))).sum = 3 := by
  norm_num [max_def]

/-- Claim C1: `scoreDayFromValues` returns `positiveSum = Σ max(0,v)`,
`negativeSum = Σ max(0,-v)` and
`rawScore = clamp(100 * sigmoid((p - lambda*n)/scale))`; for values
`[4, 3, -3]` under the default config it returns `positiveSum = 7`,
`negativeSum = 3` and a raw score within `0.1` of `56.6`. -/
theorem claim_C1 (values : List ℝ) (cfg : ScoreConfig) :
    (scoreDayFromValues values cfg).positiveSum =
      (values.map (fun v => max 0 v)).sum ∧
    (scoreDayFromValues values cfg).negativeSum =
      (values.map (fun v => max 0 (-v))).sum ∧
    (scoreDayFromValues values cfg).rawScore =
      clamp0100 (100 * sigmoid
        (((values.map (fun v => max 0 v)).sum -
          cfg.lambda * (values.map (fun v => max 0 (-v))).sum) /
          cfg.scale)) ∧
    (scoreDayFromValues [4, 3, -3] DEFAULT_CONFIG).positiveSum = 7 ∧
    (scoreDayFromValues [4, 3, -3] DEFAULT_CONFIG).negativeSum = 3 ∧
    |(scoreDayFromValues [4, 3, -3] DEFAULT_CONFIG).rawScore - 56.6| <
      1 / 10 := by
  obtain ⟨hp7, hn3⟩ := scenario1_sums
  refine ⟨positiveSum_eq values cfg, negativeSum_eq values cfg,
    rawScore_eq values cfg, ?_, ?_, ?_⟩
  · rw [positiveSum_eq]; exact hp7
  · rw [negativeSum_eq]; exact hn3
  · rw [rawScore_eq, hp7, hn3]
    have hz : ((7 : ℝ) - DEFAULT_CONFIG.lambda * 3) / DEFAULT_CONFIG.scale =
        4 / 15 := by
      norm_num [DEFAULT_CONFIG]
    rw [hz]
    obtain ⟨hb1, hb2⟩ := sigmoid_fourFifteenths_bounds
    rw [clamp0100_eq_self (by linarith) (by linarith)]
    rw [abs_lt]
    constructor <;> [linarith; linarith]

-- ---------- C7: monotonicity of the raw score ----------

theorem sigmoid_mono {z1 z2 : ℝ} (h : z1 ≤ z2) : sigmoid z1 ≤ sigmoid z2 := by
  have he : Real.exp (-z2) ≤ Real.exp (-z1) :=
    Real.exp_le_exp.2 (neg_le_neg h)
  have h1 : (0 : ℝ) < 1 + Real.exp (-z2) := by
    have := Real.exp_pos (-z2); linarith
  have h2 : 1 + Real.exp (-z2) ≤ 1 + Real.exp (-z1) := by linarith
  exact one_div_le_one_div_of_le h1 h2

theorem clamp0100_mono {a b : ℝ} (h : a ≤ b) : clamp0100 a ≤ clamp0100 b :=
  max_le_max le_rfl (min_le_min le_rfl h)

theorem rawScore_mono (cfg : ScoreConfig) (pre post : List ℝ) {a b : ℝ}
    (hl : 0 ≤ cfg.lambda) (hs : 0 < cfg.scale) (hab : a ≤ b) :
    (scoreDayFromValues (pre ++ a :: post) cfg).rawScore ≤
      (scoreDayFromValues (pre ++ b :: post) cfg).rawScore := by
  rw [rawScore_eq, rawScore_eq]
  apply clamp0100_mono
  have hP : ((pre ++ a :: post).map (fun v => max 0 v)).sum ≤
      ((pre ++ b :: post).map (fun v => max 0 v)).sum := by
    simp only [List.map_append, List.map_cons, List.sum_append, List.sum_cons]
    have : max 0 a ≤ max 0 b := max_le_max le_rfl hab
    linarith
  have hN : ((pre ++ b :: post).map (fun v => max 0 (-v))).sum ≤
      ((pre ++ a :: post).map (fun v => max 0 (-v))).sum := by
    simp only [List.map_append, List.map_cons, List.sum_append, List.sum_cons]
    have : max 0 (-b) ≤ max 0 (-a) := max_le_max le_rfl (neg_le_neg hab)
    linarith
  have hmul : cfg.lambda * ((pre ++ b :: post).map (fun v => max 0 (-v))).sum ≤
      cfg.lambda * ((pre ++ a :: post).map (fun v => max 0 (-v))).sum :=
    mul_le_mul_of_nonneg_left hN hl
  have hnum : ((pre ++ a :: post).map (fun v => max 0 v)).sum -
      cfg.lambda * ((pre ++ a :: post).map (fun v => max 0 (-v))).sum ≤
      ((pre ++ b :: post).map (fun v => max 0 v)).sum -
      cfg.lambda * ((pre ++ b :: post).map (fun v => max 0 (-v))).sum := by
    linarith
  apply mul_le_mul_of_nonneg_left _ (by norm_num : (0 : ℝ) ≤ 100)
  apply sigmoid_mono
  exact div_le_div_of_nonneg_right hnum hs.le

/-- Claim C7: with `lambda > 1` and `scale > 0`, the raw score is
non-decreasing in each positive value and non-increasing in the magnitude
of each negative value, all other values held fixed. -/
theorem claim_C7 (cfg : ScoreConfig) (pre post : List ℝ) (a b : ℝ)
    (hl : 1 < cfg.lambda) (hs : 0 < cfg.scale) :
    (0 ≤ a → a ≤ b →
      (scoreDayFromValues (pre ++ a :: post) cfg).rawScore ≤
        (scoreDayFromValues (pre ++ b :: post) cfg).rawScore) ∧
    (b ≤ 0 → a ≤ b →
      (scoreDayFromValues (pre ++ a :: post) cfg).rawScore ≤
        (scoreDayFromValues (pre ++ b :: post) cfg).rawScore) := by
  have hl0 : 0 ≤ cfg.lambda := by linarith
  exact ⟨fun _ hab => rawScore_mono cfg pre post hl0 hs hab,
    fun _ hab => rawScore_mono cfg pre post hl0 hs hab⟩

theorem claim_C7_witness :
    ((0 : ℝ) ≤ 1 → (1 : ℝ) ≤ 2 →
      (scoreDayFromValues ([] ++ 1 :: []) DEFAULT_CONFIG).rawScore ≤
        (scoreDayFromValues ([] ++ 2 :: []) DEFAULT_CONFIG).rawScore) ∧
    ((2 : ℝ) ≤ 0 → (1 : ℝ) ≤ 2 →
      (scoreDayFromValues ([] ++ 1 :: []) DEFAULT_CONFIG).rawScore ≤
        (scoreDayFromValues ([] ++ 2 :: []) DEFAULT_CONFIG).rawScore) :=
  claim_C7 DEFAULT_CONFIG [] [] 1 2 (by norm_num [DEFAULT_CONFIG])
    (by norm_num [DEFAULT_CONFIG])

-- ---------- classifier: scoreEntryLocal ----------

/-- Normalisation `text.trim().toLowerCase()`, as a character list:
whitespace stripped from both ends, then lowercased. -/
def normText (s : String) : List Char :=
  (((s.data.dropWhile Char.isWhitespace).reverse.dropWhile
    Char.isWhitespace).reverse).map Char.toLower

/-- `t.includes(w)`: `w` occurs as a contiguous substring of `t`. -/
def isSub (w t : List Char) : Bool :=
  t.tails.any (fun suf => w.isPrefixOf suf)

/-- `hit(words) = words.some((w) => t.includes(w))`. -/
def hit (t : List Char) (words : List String) : Bool :=
  words.any (fun w => isSub w.data t)

/-- `scoreEntryLocal(text)`: the keyword heuristic, an ordered chain of
keyword-group tests over the normalised text, first match wins. -/
def scoreEntryLocal (text : String) : EntryCategory × ℚ :=
  let t := normText text
  if hit t ["walk", "run", "gym", "workout", "yoga", "stretch", "exercise"]
    then (.Physical, 4)
  else if hit t ["cook", "healthy", "salad", "water", "hydrated"]
    then (.Physical, 2)
  else if hit t ["called", "meet", "met", "friend", "family", "talked"]
    then (.Social, 3)
  else if hit t ["focused", "deep work", "finish", "completed", "shipped"]
    then (.Focus, 4)
  else if hit t ["journal", "meditate", "meditation", "breath", "therapy"]
    then (.EmotionRegulation, 3)
  else if hit t ["slept early", "sleep early", "8 hours", "good sleep"]
    then (.Sleep, 4)
  else if hit t ["doomscroll", "scrolling", "tiktok", "instagram for hours"]
    then (.Avoidance, -3)
  else if hit t ["stayed up", "3am", "4am", "no sleep", "insomnia"]
    then (.Sleep, -4)
  else if hit t ["drank", "alcohol", "hangover"]
    then (.Impulse, -3)
  else if hit t ["argued", "fight", "shouted", "rage"]
    then (.Impulse, -4)
  else if hit t ["avoided", "procrastinated", "skipped"]
    then (.Avoidance, -2)
  else (.Other, 0)

/-- The keyword rule table of `scoreEntryLocal`, in source order. -/
def rules : List (List String × EntryCategory × ℚ) :=
  [(["walk", "run", "gym", "workout", "yoga", "stretch", "exercise"],
      .Physical, 4),
   (["cook", "healthy", "salad", "water", "hydrated"], .Physical, 2),
   (["called", "meet", "met", "friend", "family", "talked"], .Social, 3),
   (["focused", "deep work", "finish", "completed", "shipped"], .Focus, 4),
   (["journal", "meditate", "meditation", "breath", "therapy"],
      .EmotionRegulation, 3),
   (["slept early", "sleep early", "8 hours", "good sleep"], .Sleep, 4),
   (["doomscroll", "scrolling", "tiktok", "instagram for hours"],
      .Avoidance, -3),
   (["stayed up", "3am", "4am", "no sleep", "insomnia"], .Sleep, -4),
   (["drank", "alcohol", "hangover"], .Impulse, -3),
   (["argued", "fight", "shouted", "rage"], .Impulse, -4),
   (["avoided", "procrastinated", "skipped"], .Avoidance, -2)]

/-- First-match semantics over the ordered rule table: the result of the
first rule whose keyword group matches, else `(Other, 0)`. -/
def firstMatch (t : List Char) : EntryCategory × ℚ :=
  match rules.find? (fun r => hit t r.1) with
  | some r => r.2
  | none => (.Other, 0)

/-- Sequential matching over a rule list: take the first rule whose
keyword group hits, else `(Other, 0)`. -/
def matchRules : List (List String × EntryCategory × ℚ) → List Char →
    EntryCategory × ℚ
  | [], _ => (.Other, 0)
  | r :: rs, t => if hit t r.1 then r.2 else matchRules rs t

theorem scoreEntryLocal_eq_matchRules (s : String) :
    scoreEntryLocal s = matchRules rules (normText s) := rfl

theorem matchRules_eq_find (rs : List (List String × EntryCategory × ℚ))
    (t : List Char) :
    matchRules rs t =
      (match rs.find? (fun r => hit t r.1) with
       | some r => r.2
       | none => (EntryCategory.Other, 0)) := by
  induction rs with
  | nil => rfl
  | cons r rest ih =>
    simp only [matchRules]
    by_cases h : hit t r.1 = true
    · rw [if_pos h, List.find?_cons_of_pos _ (by simpa using h)]
    · rw [if_neg h, ih, List.find?_cons_of_neg _ (by simpa using h)]

theorem matchRules_mem (rs : List (List String × EntryCategory × ℚ))
    (t : List Char) :
    matchRules rs t ∈
      rs.map (fun r => r.2) ++ [(EntryCategory.Other, (0 : ℚ))] := by
  induction rs with
  | nil => simp [matchRules]
  | cons r rest ih =>
    simp only [matchRules, List.map_cons, List.cons_append]
    by_cases h : hit t r.1 = true
    · rw [if_pos h]
      exact List.mem_cons_self _ _
    · rw [if_neg h]
      exact List.mem_cons_of_mem _ ih

/-- Claim C3: the classifier is total: every string yields a category of
the closed enumeration and a value in `[-5, 5]` (hence in `[-5, 10]`),
and the empty string yields `(Other, 0)`. -/
theorem claim_C3 (s : String) :
    ((scoreEntryLocal s).1 ∈
        [EntryCategory.Physical, EntryCategory.Social, EntryCategory.Focus,
         EntryCategory.EmotionRegulation, EntryCategory.Avoidance,
         EntryCategory.Impulse, EntryCategory.Sleep, EntryCategory.Other] ∧
      -5 ≤ (scoreEntryLocal s).2 ∧ (scoreEntryLocal s).2 ≤ 5 ∧
      (scoreEntryLocal s).2 ≤ 10) ∧
    scoreEntryLocal ("") = (EntryCategory.Other, 0) := by
  have hmem : scoreEntryLocal s ∈
      rules.map (fun r => r.2) ++ [(EntryCategory.Other, (0 : ℚ))] := by
    rw [scoreEntryLocal_eq_matchRules]
    exact matchRules_mem rules (normText s)
  have hall : ∀ x ∈ rules.map (fun r => r.2) ++
      [(EntryCategory.Other, (0 : ℚ))],
      x.1 ∈ [EntryCategory.Physical, EntryCategory.Social,
        EntryCategory.Focus, EntryCategory.EmotionRegulation,
        EntryCategory.Avoidance, EntryCategory.Impulse, EntryCategory.Sleep,
        EntryCategory.Other] ∧
      -5 ≤ x.2 ∧ x.2 ≤ 5 ∧ x.2 ≤ 10 := by decide
  exact ⟨hall _ hmem, by decide⟩

/-- Claim C6: the classifier equals first-match over the ordered rule
table applied to the normalised text, and the text
`Went for a 20 min walk` yields `(Physical, 4)` via the keyword
`walk` of the first rule. -/
theorem claim_C6 (s : String) :
    scoreEntryLocal s = firstMatch (normText s) ∧
    scoreEntryLocal ("Went for a 20 min walk") =
      (EntryCategory.Physical, 4) ∧
    isSub (("walk").data) (normText ("Went for a 20 min walk")) = true := by
  refine ⟨?_, by decide, by decide⟩
  rw [scoreEntryLocal_eq_matchRules, matchRules_eq_find]
  rfl

-- ---------- C9: the per-note valuation step of the pipeline ----------

/-- A stored note (`Entry`): optional category and optional value. -/
structure Entry where
  id : String
  text : String
  createdAt : String
  category : Option EntryCategory
  value : Option ℚ
deriving DecidableEq

/-- A valued note (`ScoredEntry`). -/
structure ScoredEntry where
  id : String
  text : String
  createdAt : String
  category : EntryCategory
  value : ℚ
deriving DecidableEq

/-- The per-note valuation step shared by the today page and the report
page, with the classifier abstracted as `f`: the code computes
`scored = f(e.text)` unconditionally and builds
`category = e.category ?? scored.category`,
`value = typeof e.value === number ? e.value : scored.value`. -/
def scoreEntryWith (f : String → EntryCategory × ℚ) (e : Entry) :
    ScoredEntry :=
  let scored := f e.text
  { id := e.id, text := e.text, createdAt := e.createdAt,
    category := e.category.getD scored.1,
    value := e.value.getD scored.2 }

/-- The valuation step with the concrete heuristic classifier. -/
def scoreEntry (e : Entry) : ScoredEntry :=
  scoreEntryWith scoreEntryLocal e

/-- A trivial replacement classifier used to observe whether the
pipeline consults the classifier at all. -/
def constOther : String → EntryCategory × ℚ :=
  fun _ => (EntryCategory.Other, 0)

/-- Claim C9 counterexample: for a note that carries a numeric value but
no category, the pipeline result still depends on the classifier: with
the heuristic classifier the category is `Physical`, with a different
classifier it is `Other` — so the classifier is invoked (and observed)
even though a value is present. -/
theorem claim_C9_counterexample :
    (scoreEntryWith scoreEntryLocal
        { id := ("n1"), text := ("walk"), createdAt := ("t"),
          category := none, value := some 7 }).category =
      EntryCategory.Physical ∧
    (scoreEntryWith constOther
        { id := ("n1"), text := ("walk"), createdAt := ("t"),
          category := none, value := some 7 }).category =
      EntryCategory.Other ∧
    EntryCategory.Physical ≠ EntryCategory.Other := by decide

/-- Claim C9 (amended): for every note that already carries a numeric
value, the pipeline uses the stored value verbatim (no re-clamping, even
outside the nominal range); the classifier is nevertheless consulted,
and its category is used exactly when the note lacks a stored one. -/
theorem claim_C9_amended (f : String → EntryCategory × ℚ) (e : Entry)
    (v : ℚ) (hv : e.value = some v) :
    (scoreEntryWith f e).value = v ∧
    (scoreEntryWith f e).category = e.category.getD (f e.text).1 := by
  simp [scoreEntryWith, hv]

theorem claim_C9_witness :
    (scoreEntryWith scoreEntryLocal
        { id := ("a"), text := ("walk"), createdAt := ("t"),
          category := none, value := some 20 }).value = 20 ∧
    (scoreEntryWith scoreEntryLocal
        { id := ("a"), text := ("walk"), createdAt := ("t"),
          category := none, value := some 20 }).category =
      (Option.none).getD (scoreEntryLocal ("walk")).1 :=
  claim_C9_amended scoreEntryLocal
    { id := ("a"), text := ("walk"), createdAt := ("t"),
      category := none, value := some 20 } 20 rfl

-- ---------- C8: no configuration validation ----------

/-- Claim C8 (refuting the required behaviour): nothing in the code
validates `ScoreConfig`; `scoreDayFromValues` accepts `scale = 0` and
silently returns a numeric score record (in this real-number embedding
division by zero is zero, so the raw score is 50; in JavaScript the
division yields `Infinity`/`NaN`-driven scores) instead of rejecting the
configuration. -/
theorem claim_C8 :
    scoreDayFromValues [1] { lambda := 1.8, scale := 0, emaAlpha := 0.3 } =
      { positiveSum := 1, negativeSum := 0, rawScore := 50 } := by
  have h1 : max (0 : ℝ) 1 = 1 := by norm_num
  have h2 : max (0 : ℝ) (-1) = 0 := by norm_num
  simp only [scoreDayFromValues, List.foldl_cons, List.foldl_nil, h1, h2,
    zero_add, add_zero, div_zero, sigmoid_zero]
  have : (100 : ℝ) * (1 / 2) = 50 := by norm_num
  rw [this, clamp0100_eq_self (by norm_num) (by norm_num)]

theorem claim_C2_witness :
    (0 ≤ (scoreDayFromValues [1] DEFAULT_CONFIG).rawScore ∧
      (scoreDayFromValues [1] DEFAULT_CONFIG).rawScore ≤ 100) ∧
    scoreDayFromValues ([] : List ℝ) DEFAULT_CONFIG =
      { positiveSum := 0, negativeSum := 0, rawScore := 50 } :=
  claim_C2 [1] DEFAULT_CONFIG (by norm_num [DEFAULT_CONFIG])
